import Mathlib

/-!
Shallow embedding of the arithmetic-expression parser/evaluator in
`src/main.rs` (tokenizer `tokenize`, recursive-descent rules `parse_expr`,
`parse_term`, `parse_number`, top-level `parse`, and `evaluate`).

Machine integers are modelled as `Nat`/`Int` with explicit reduction
modulo `2^32` where the Rust code computes in `u32`/`i32`
(wrapping semantics): `parse_number` folds digits in `u32` and casts the
result `as i32`, and `evaluate` adds/subtracts in `i32`.

Strings are modelled as `List Char`.  The parsing rules `parse_expr` and
`parse_term` are mutually recursive; their Lean embedding returns the
remainder as a subtype carrying the fact that a successful rule consumes
at least one token, which is exactly the measure that justifies the
recursion (the Rust slices `&remaining[1..]` strictly shrink).
-/

/-- Token type of `src/main.rs` (`Token`); `Digit` carries a `u32` value. -/
inductive Token where
  | LParen
  | RParen
  | Digit (d : Nat)
  | Plus
  | Minus
  deriving DecidableEq, Repr

/-- Error type of `src/main.rs` (`ParseError`). -/
inductive ParseError where
  | Expected (expected : String) (found : Token)
  | UnexpectedEndOfInput
  | InvalidToken (c : Char)
  deriving DecidableEq, Repr

/-- Expression tree of `src/main.rs` (`Expr`); `Number` carries an `i32`. -/
inductive Expr where
  | Add (lhs rhs : Expr)
  | Sub (lhs rhs : Expr)
  | Number (n : Int)
  deriving DecidableEq, Repr

/-- The `take_while` predicate of `parse_number`: is this token a digit? -/
def Token.isDigitTok : Token → Bool
  | Token.Digit _ => true
  | _ => false

/-- The `map` step of `parse_number`: extract the digit value
(the other arms are `unreachable!` after `take_while`). -/
def Token.digitVal : Token → Nat
  | Token.Digit d => d
  | _ => 0

/-- One `u32` accumulation step of `parse_number`'s `reduce`:
`total * 10 + digit` with wrapping `u32` arithmetic. -/
def u32step (total digit : Nat) : Nat := (total * 10 + digit) % 2 ^ 32

/-- The Rust cast `u32 as i32`: reinterpret the 32-bit pattern as signed. -/
def u32asI32 (n : Nat) : Int :=
  if n < 2 ^ 31 then (n : Int) else (n : Int) - 2 ^ 32

/-- `i32` wrapping of an unbounded integer (result of `i32` `+`/`-`). -/
def i32wrap (n : Int) : Int := (n + 2 ^ 31) % 2 ^ 32 - 2 ^ 31

/-- `parse_number` of `src/main.rs`: requires a leading digit token,
consumes the maximal run of digit tokens, folds them with
`total * 10 + digit` in `u32` seeded with the first digit (`reduce`),
and returns `Number(value as i32)` together with `tokens[num_digits..]`. -/
def parse_number (tokens : List Token) :
    Except ParseError (Expr × List Token) :=
  match tokens with
  | Token.Digit d :: rest =>
      let ds := (rest.takeWhile Token.isDigitTok).map Token.digitVal
      let value := ds.foldl u32step d
      Except.ok (Expr.Number (u32asI32 value), rest.drop ds.length)
  | t :: _ => Except.error (ParseError.Expected "digit" t)
  | [] => Except.error ParseError.UnexpectedEndOfInput

/-- A successful `parse_number` consumes at least one token. -/
theorem parse_number_consumes {tokens : List Token} {e : Expr}
    {rest : List Token} (h : parse_number tokens = Except.ok (e, rest)) :
    rest.length < tokens.length := by
  match tokens with
  | [] => simp [parse_number] at h
  | Token.Digit d :: r =>
      simp only [parse_number, Except.ok.injEq, Prod.mk.injEq] at h
      obtain ⟨-, hrest⟩ := h
      subst hrest
      simp only [List.length_cons, List.length_drop]
      omega
  | Token.LParen :: r => simp [parse_number] at h
  | Token.RParen :: r => simp [parse_number] at h
  | Token.Plus :: r => simp [parse_number] at h
  | Token.Minus :: r => simp [parse_number] at h

mutual

/-- `parse_expr` of `src/main.rs`: parse one term; on `+` parse one more
`term` and build `Add`; on `-` parse a full `expr` and build `Sub`;
otherwise return the term with the remainder untouched.  The returned
remainder carries the proof that the rule consumed at least one token. -/
def parse_expr (tokens : List Token) :
    Except ParseError (Expr × {rest : List Token // rest.length < tokens.length}) :=
  match parse_term tokens with
  | Except.error e => Except.error e
  | Except.ok (term, ⟨Token.Plus :: rest, hr⟩) =>
      match parse_term rest with
      | Except.error e => Except.error e
      | Except.ok (other, ⟨rem, h2⟩) =>
          Except.ok (Expr.Add term other,
            ⟨rem, by simp only [List.length_cons] at hr; omega⟩)
  | Except.ok (term, ⟨Token.Minus :: rest, hr⟩) =>
      match parse_expr rest with
      | Except.error e => Except.error e
      | Except.ok (other, ⟨rem, h2⟩) =>
          Except.ok (Expr.Sub term other,
            ⟨rem, by simp only [List.length_cons] at hr; omega⟩)
  | Except.ok (term, rem) => Except.ok (term, rem)
termination_by 2 * tokens.length + 1
decreasing_by
  all_goals ((try simp only [List.length_cons] at *); omega)

/-- `parse_term` of `src/main.rs`: on `(` parse a nested `expr` and demand
a closing `)`; on any other leading token delegate to `parse_number`;
on empty input fail with `UnexpectedEndOfInput`. -/
def parse_term (tokens : List Token) :
    Except ParseError (Expr × {rest : List Token // rest.length < tokens.length}) :=
  match tokens with
  | Token.LParen :: rest =>
      match parse_expr rest with
      | Except.error e => Except.error e
      | Except.ok (e, ⟨Token.RParen :: rest2, hr⟩) =>
          Except.ok (e, ⟨rest2, by
            simp only [List.length_cons] at hr ⊢; omega⟩)
      | Except.ok (_, ⟨t :: _, _⟩) =>
          Except.error (ParseError.Expected "right parenthesis" t)
      | Except.ok (_, ⟨[], _⟩) => Except.error ParseError.UnexpectedEndOfInput
  | t :: rest =>
      match h : parse_number (t :: rest) with
      | Except.error e => Except.error e
      | Except.ok (e, rem) => Except.ok (e, ⟨rem, parse_number_consumes h⟩)
  | [] => Except.error ParseError.UnexpectedEndOfInput
termination_by 2 * tokens.length
decreasing_by
  all_goals ((try simp only [List.length_cons] at *); omega)

end

/-- One character of `tokenize`'s `match`: parentheses and operators map
to their tokens, anything else goes through `to_digit(10)` and fails with
`InvalidToken` when it is not a decimal digit. -/
def charToken (c : Char) : Except ParseError Token :=
  if c = '(' then Except.ok Token.LParen
  else if c = ')' then Except.ok Token.RParen
  else if c = '+' then Except.ok Token.Plus
  else if c = '-' then Except.ok Token.Minus
  else if c.isDigit then Except.ok (Token.Digit (c.toNat - 48))
  else Except.error (ParseError.InvalidToken c)

/-- The `collect::<Result<Vec<Token>, ParseError>>` step of `tokenize`:
map each character through `charToken` left to right, short-circuiting at
the first error. -/
def collectTokens : List Char → Except ParseError (List Token)
  | [] => Except.ok []
  | c :: cs =>
      match charToken c with
      | Except.error e => Except.error e
      | Except.ok t =>
          match collectTokens cs with
          | Except.error e => Except.error e
          | Except.ok ts => Except.ok (t :: ts)

/-- `tokenize` of `src/main.rs`: drop whitespace, map every surviving
character through the token `match`, and collect, short-circuiting at the
first error. -/
def tokenize (input : List Char) : Except ParseError (List Token) :=
  collectTokens (input.filter (fun c => !c.isWhitespace))

/-- `parse` of `src/main.rs`: tokenize, run `parse_expr` on the full token
sequence, and fail with `Expected {end of input}` if any token remains. -/
def parse (input : List Char) : Except ParseError Expr :=
  match tokenize input with
  | Except.error e => Except.error e
  | Except.ok tokens =>
      match parse_expr tokens with
      | Except.error e => Except.error e
      | Except.ok (_, ⟨t :: _, _⟩) =>
          Except.error (ParseError.Expected "end of input" t)
      | Except.ok (e, ⟨[], _⟩) => Except.ok e

/-- `evaluate` of `src/main.rs`: `Number v → v`, `Add` and `Sub` recurse
and combine with `i32` (wrapping) addition and subtraction. -/
def evaluate : Expr → Int
  | Expr.Add lhs rhs => i32wrap (evaluate lhs + evaluate rhs)
  | Expr.Sub lhs rhs => i32wrap (evaluate lhs - evaluate rhs)
  | Expr.Number n => n

/-!
Step lemmas: one conditional rewrite per branch of the mutually recursive
rules, proved from the equational lemmas of the well-founded definitions.
All further proofs go through these.
-/

theorem parse_expr_plus_ok {ts : List Token} {t : Expr} {rest : List Token}
    {hr : (Token.Plus :: rest).length < ts.length} {o : Expr} {rem : List Token}
    {h2 : rem.length < rest.length}
    (h : parse_term ts = Except.ok (t, ⟨Token.Plus :: rest, hr⟩))
    (h' : parse_term rest = Except.ok (o, ⟨rem, h2⟩)) :
    parse_expr ts = Except.ok (Expr.Add t o,
      ⟨rem, by simp only [List.length_cons] at hr; omega⟩) := by
  rw [parse_expr.eq_def]
  split <;> try simp_all
  case h_2 => obtain ⟨rfl, rfl⟩ := h; rw [h']
  case h_4 =>
    rename_i hcon _
    exact absurd rfl (hcon rest (by simp only [List.length_cons] at hr; omega))

theorem parse_expr_term_err {ts : List Token} {e : ParseError}
    (h : parse_term ts = Except.error e) : parse_expr ts = Except.error e := by
  rw [parse_expr.eq_def]
  split <;> simp_all

theorem parse_expr_plus_err {ts : List Token} {t : Expr} {rest : List Token}
    {hr : (Token.Plus :: rest).length < ts.length} {e : ParseError}
    (h : parse_term ts = Except.ok (t, ⟨Token.Plus :: rest, hr⟩))
    (h' : parse_term rest = Except.error e) :
    parse_expr ts = Except.error e := by
  rw [parse_expr.eq_def]
  split <;> try simp_all
  case h_2 => obtain ⟨rfl, rfl⟩ := h; rw [h']
  case h_4 =>
    rename_i hcon _
    exact absurd rfl (hcon rest (by simp only [List.length_cons] at hr; omega))

theorem parse_expr_minus_ok {ts : List Token} {t : Expr} {rest : List Token}
    {hr : (Token.Minus :: rest).length < ts.length} {o : Expr} {rem : List Token}
    {h2 : rem.length < rest.length}
    (h : parse_term ts = Except.ok (t, ⟨Token.Minus :: rest, hr⟩))
    (h' : parse_expr rest = Except.ok (o, ⟨rem, h2⟩)) :
    parse_expr ts = Except.ok (Expr.Sub t o,
      ⟨rem, by simp only [List.length_cons] at hr; omega⟩) := by
  rw [parse_expr.eq_def]
  split <;> try simp_all
  case h_3 => obtain ⟨rfl, rfl⟩ := h; rw [h']
  case h_4 =>
    rename_i hcon _
    exact absurd rfl (hcon rest (by simp only [List.length_cons] at hr; omega))

theorem parse_expr_minus_err {ts : List Token} {t : Expr} {rest : List Token}
    {hr : (Token.Minus :: rest).length < ts.length} {e : ParseError}
    (h : parse_term ts = Except.ok (t, ⟨Token.Minus :: rest, hr⟩))
    (h' : parse_expr rest = Except.error e) :
    parse_expr ts = Except.error e := by
  rw [parse_expr.eq_def]
  split <;> try simp_all
  case h_3 => obtain ⟨rfl, rfl⟩ := h; rw [h']
  case h_4 =>
    rename_i hcon _
    exact absurd rfl (hcon rest (by simp only [List.length_cons] at hr; omega))

theorem parse_expr_term_done {ts : List Token} {t : Expr} {rem : List Token}
    {hr : rem.length < ts.length}
    (h : parse_term ts = Except.ok (t, ⟨rem, hr⟩))
    (hp : ∀ r, rem ≠ Token.Plus :: r) (hm : ∀ r, rem ≠ Token.Minus :: r) :
    parse_expr ts = Except.ok (t, ⟨rem, hr⟩) := by
  rw [parse_expr.eq_def]
  split <;> try simp_all
  case h_2 => obtain ⟨-, hcons⟩ := h; exact absurd hcons.symm (hp _)
  case h_3 => obtain ⟨-, hcons⟩ := h; exact absurd hcons.symm (hm _)

theorem parse_term_nil : parse_term [] = Except.error ParseError.UnexpectedEndOfInput := by
  rw [parse_term.eq_def]

theorem parse_term_number_ok {t : Token} {rest : List Token} {e : Expr} {rem : List Token}
    (hne : t ≠ Token.LParen) (h : parse_number (t :: rest) = Except.ok (e, rem)) :
    parse_term (t :: rest) = Except.ok (e, ⟨rem, parse_number_consumes h⟩) := by
  match t, hne with
  | Token.RParen, _ | Token.Plus, _ | Token.Minus, _ | Token.Digit _, _ =>
    rw [parse_term.eq_def]; dsimp only
    split <;> try simp_all
    all_goals
      rename_i heq
      rw [h] at heq
      simp only [Except.ok.injEq, Prod.mk.injEq] at heq
      exact ⟨heq.1.symm, heq.2.symm⟩

theorem parse_term_lparen_err {rest : List Token} {e : ParseError}
    (h : parse_expr rest = Except.error e) :
    parse_term (Token.LParen :: rest) = Except.error e := by
  rw [parse_term.eq_def]
  dsimp only
  split <;> simp_all

theorem parse_term_lparen_ok {rest : List Token} {e : Expr} {rest2 : List Token}
    {hr : (Token.RParen :: rest2).length < rest.length}
    (h : parse_expr rest = Except.ok (e, ⟨Token.RParen :: rest2, hr⟩)) :
    parse_term (Token.LParen :: rest) = Except.ok (e,
      ⟨rest2, by simp only [List.length_cons] at hr ⊢; omega⟩) := by
  rw [parse_term.eq_def]
  dsimp only
  split <;> simp_all

theorem parse_term_lparen_bad {rest : List Token} {e : Expr} {t : Token}
    {rest2 : List Token} {hr : (t :: rest2).length < rest.length}
    (h : parse_expr rest = Except.ok (e, ⟨t :: rest2, hr⟩)) (hne : t ≠ Token.RParen) :
    parse_term (Token.LParen :: rest) =
      Except.error (ParseError.Expected "right parenthesis" t) := by
  rw [parse_term.eq_def]
  dsimp only
  split <;> simp_all

theorem parse_term_lparen_end {rest : List Token} {e : Expr}
    {hr : ([] : List Token).length < rest.length}
    (h : parse_expr rest = Except.ok (e, ⟨[], hr⟩)) :
    parse_term (Token.LParen :: rest) = Except.error ParseError.UnexpectedEndOfInput := by
  rw [parse_term.eq_def]
  dsimp only
  split <;> simp_all

theorem parse_term_number_err {t : Token} {rest : List Token} {e : ParseError}
    (hne : t ≠ Token.LParen) (h : parse_number (t :: rest) = Except.error e) :
    parse_term (t :: rest) = Except.error e := by
  match t, hne with
  | Token.RParen, _ => rw [parse_term.eq_def]; dsimp only; split <;> simp_all
  | Token.Plus, _ => rw [parse_term.eq_def]; dsimp only; split <;> simp_all
  | Token.Minus, _ => rw [parse_term.eq_def]; dsimp only; split <;> simp_all
  | Token.Digit d, _ => rw [parse_term.eq_def]; dsimp only; split <;> simp_all

/-!
Helper lemmas about the tokenizer, digit characters, the numeric fold of
`parse_number`, and the remainder-is-a-suffix invariant.
-/
/-- Specification-side classification: characters in the language's
alphabet (parentheses, operators, decimal digits). -/
def validChar (c : Char) : Bool :=
  c = '(' || c = ')' || c = '+' || c = '-' || c.isDigit

/-- Specification-side total mapping from alphabet characters to tokens. -/
def tokenOfChar (c : Char) : Token :=
  if c = '(' then Token.LParen
  else if c = ')' then Token.RParen
  else if c = '+' then Token.Plus
  else if c = '-' then Token.Minus
  else Token.Digit (c.toNat - 48)

theorem charToken_valid {c : Char} (h : validChar c = true) :
    charToken c = Except.ok (tokenOfChar c) := by
  unfold charToken tokenOfChar
  by_cases h1 : c = '('
  · simp [h1]
  by_cases h2 : c = ')'
  · simp [h1, h2]
  by_cases h3 : c = '+'
  · simp [h1, h2, h3]
  by_cases h4 : c = '-'
  · simp [h1, h2, h3, h4]
  have hd : c.isDigit = true := by
    simpa [validChar, h1, h2, h3, h4] using h
  simp [h1, h2, h3, h4, hd]

theorem charToken_invalid {c : Char} (h : validChar c = false) :
    charToken c = Except.error (ParseError.InvalidToken c) := by
  simp only [validChar, Bool.or_eq_false_iff, decide_eq_false_iff_not] at h
  obtain ⟨⟨⟨⟨h1, h2⟩, h3⟩, h4⟩, h5⟩ := h
  simp [charToken, h1, h2, h3, h4, h5]

theorem collectTokens_ok : ∀ (cs : List Char), (∀ c ∈ cs, validChar c = true) →
    collectTokens cs = Except.ok (cs.map tokenOfChar)
  | [], _ => rfl
  | c :: cs, h => by
      have hc := charToken_valid (h c (by simp))
      have ih := collectTokens_ok cs (fun d hd => h d (by simp [hd]))
      simp [collectTokens, hc, ih]

theorem collectTokens_err : ∀ (pre : List Char) (c : Char) (suf : List Char),
    (∀ d ∈ pre, validChar d = true) → validChar c = false →
    collectTokens (pre ++ c :: suf) = Except.error (ParseError.InvalidToken c)
  | [], c, suf, _, hc => by
      simp [collectTokens, charToken_invalid hc]
  | d :: pre, c, suf, hpre, hc => by
      have hd := charToken_valid (hpre d (by simp))
      have ih := collectTokens_err pre c suf (fun x hx => hpre x (by simp [hx])) hc
      simp [collectTokens, hd, ih]

theorem digit_char_ne (c : Char) (h : c.isDigit = true) :
    c ≠ '(' ∧ c ≠ ')' ∧ c ≠ '+' ∧ c ≠ '-' := by
  refine ⟨?_, ?_, ?_, ?_⟩ <;> (intro hc; subst hc; exact absurd h (by decide))

theorem digit_char_not_ws (c : Char) (h : c.isDigit = true) :
    c.isWhitespace = false := by
  by_contra hw
  have hw' : c.isWhitespace = true := by
    cases hcw : c.isWhitespace
    · exact absurd hcw hw
    · rfl
  simp only [Char.isWhitespace, Bool.or_eq_true, decide_eq_true_eq] at hw'
  rcases hw' with ((hc | hc) | hc) | hc <;> (subst hc; exact absurd h (by decide))

theorem digit_char_valid (c : Char) (h : c.isDigit = true) : validChar c = true := by
  simp [validChar, h]

theorem digit_char_tokenOf (c : Char) (h : c.isDigit = true) :
    tokenOfChar c = Token.Digit (c.toNat - 48) := by
  obtain ⟨h1, h2, h3, h4⟩ := digit_char_ne c h
  simp [tokenOfChar, h1, h2, h3, h4]

/-- The digit value of a digit character is below 10. -/
theorem digit_char_val_lt (c : Char) (h : c.isDigit = true) : c.toNat - 48 < 10 := by
  simp only [Char.isDigit, Bool.and_eq_true, decide_eq_true_eq, ge_iff_le,
    UInt32.le_def, BitVec.le_def] at h
  have h48 : ((48 : UInt32).toBitVec).toNat = 48 := rfl
  have h57 : ((57 : UInt32).toBitVec).toNat = 57 := rfl
  simp only [Char.toNat, UInt32.toNat]
  omega

/-- Base-10 value of a digit string by left-to-right positional
accumulation, as the claim describes it (exact arithmetic). -/
def digitsVal (cs : List Char) : Nat :=
  cs.foldl (fun a c => a * 10 + (c.toNat - 48)) 0

theorem foldl_acc_le : ∀ (l : List Nat) (a : Nat),
    a ≤ l.foldl (fun x d => x * 10 + d) a
  | [], a => Nat.le_refl a
  | d :: l, a => by
      have h := foldl_acc_le l (a * 10 + d)
      simp only [List.foldl_cons]
      omega

theorem foldl_u32step_eq : ∀ (l : List Nat) (a : Nat),
    l.foldl (fun x d => x * 10 + d) a < 2 ^ 32 →
    l.foldl u32step a = l.foldl (fun x d => x * 10 + d) a
  | [], a, _ => rfl
  | d :: l, a, h => by
      simp only [List.foldl_cons] at h ⊢
      have hle := foldl_acc_le l (a * 10 + d)
      have hstep : u32step a d = a * 10 + d := by
        simp only [u32step]
        omega
      rw [hstep, foldl_u32step_eq l (a * 10 + d) h]

theorem takeWhile_digits (ds : List Nat) :
    (ds.map Token.Digit).takeWhile Token.isDigitTok = ds.map Token.Digit := by
  induction ds with
  | nil => rfl
  | cons d ds ih => simp [List.takeWhile_cons, Token.isDigitTok, ih]

theorem parse_number_digits (ds : List Nat) (d : Nat) :
    parse_number (Token.Digit d :: ds.map Token.Digit) =
      Except.ok (Expr.Number (u32asI32 (ds.foldl u32step d)), []) := by
  simp only [parse_number, takeWhile_digits, List.map_map]
  have hmap : ∀ l : List Nat, l.map (Token.digitVal ∘ Token.Digit) = l := by
    intro l
    induction l with
    | nil => rfl
    | cons x l ih => simp only [List.map_cons, Function.comp_apply, Token.digitVal, ih]
  rw [hmap]
  have hlen : (ds.map Token.Digit).length = ds.length := List.length_map _ _
  have hdrop : List.drop ds.length (ds.map Token.Digit) = [] := by
    rw [← hlen, List.drop_length]
  rw [hdrop]

theorem parse_all_digits (c : Char) (cs : List Char)
    (hd : ∀ x ∈ c :: cs, x.isDigit = true) :
    parse (c :: cs) = Except.ok (Expr.Number (u32asI32
      ((cs.map (fun x => x.toNat - 48)).foldl u32step (c.toNat - 48)))) := by
  have hfilter : (c :: cs).filter (fun x => !x.isWhitespace) = c :: cs := by
    rw [List.filter_eq_self]
    intro a ha
    simp [digit_char_not_ws a (hd a ha)]
  have hmapTok : (c :: cs).map tokenOfChar =
      Token.Digit (c.toNat - 48) :: (cs.map (fun x => x.toNat - 48)).map Token.Digit := by
    rw [List.map_map, List.map_cons, digit_char_tokenOf c (hd c (by simp))]
    refine congrArg _ (List.map_congr_left fun a ha => ?_)
    simp only [Function.comp_apply]
    exact digit_char_tokenOf a (hd a (by simp [ha]))
  have htok : tokenize (c :: cs) =
      Except.ok (Token.Digit (c.toNat - 48) :: (cs.map (fun x => x.toNat - 48)).map Token.Digit) := by
    rw [tokenize, hfilter, collectTokens_ok _ (fun a ha => digit_char_valid a (hd a ha)), hmapTok]
  have hnum := parse_number_digits (cs.map (fun x => x.toNat - 48)) (c.toNat - 48)
  have hterm := parse_term_number_ok (by simp) hnum
  have hexpr := parse_expr_term_done hterm (fun r => by simp) (fun r => by simp)
  simp only [parse, htok, hexpr]

theorem parse_number_suffix {tokens : List Token} {e : Expr} {rest : List Token}
    (h : parse_number tokens = Except.ok (e, rest)) : rest <:+ tokens := by
  match tokens with
  | [] => simp [parse_number] at h
  | Token.Digit d :: r =>
      simp only [parse_number, Except.ok.injEq, Prod.mk.injEq] at h
      obtain ⟨-, hrest⟩ := h
      subst hrest
      exact (List.drop_suffix _ _).trans (List.suffix_cons _ _)
  | Token.LParen :: r => simp [parse_number] at h
  | Token.RParen :: r => simp [parse_number] at h
  | Token.Plus :: r => simp [parse_number] at h
  | Token.Minus :: r => simp [parse_number] at h

theorem parse_suffix_aux : ∀ (n : Nat) (ts : List Token), 2 * ts.length + 1 ≤ n →
    ((∀ e rest hr, parse_term ts = Except.ok (e, ⟨rest, hr⟩) → rest <:+ ts) ∧
     (∀ e rest hr, parse_expr ts = Except.ok (e, ⟨rest, hr⟩) → rest <:+ ts)) := by
  intro n
  induction n with
  | zero => intro ts h; omega
  | succ n ih =>
    intro ts hn
    have hterm : ∀ e rest hr, parse_term ts = Except.ok (e, ⟨rest, hr⟩) → rest <:+ ts := by
      intro e rest hr h
      rw [parse_term.eq_def] at h
      split at h
      · -- LParen :: rest'
        rename_i rest'
        split at h
        · exact absurd h (by simp)
        · rename_i e' rest2 hr' heq
          simp only [Except.ok.injEq, Prod.mk.injEq, Subtype.mk.injEq] at h
          obtain ⟨rfl, rfl⟩ := h
          have hb : 2 * rest'.length + 1 ≤ n := by
            simp only [List.length_cons] at hn; omega
          have hsub := (ih rest' hb).2 _ _ _ heq
          exact ((List.suffix_cons _ _).trans hsub).trans (List.suffix_cons _ _)
        · exact absurd h (by simp)
        · exact absurd h (by simp)
      · -- non-LParen head
        rename_i t rest' hne
        split at h
        · exact absurd h (by simp)
        · rename_i e' rem heq
          simp only [Except.ok.injEq, Prod.mk.injEq, Subtype.mk.injEq] at h
          obtain ⟨rfl, rfl⟩ := h
          exact parse_number_suffix heq
      · exact absurd h (by simp)
    refine ⟨hterm, ?_⟩
    intro e rest hr h
    rw [parse_expr.eq_def] at h
    split at h
    · exact absurd h (by simp)
    · -- Plus branch
      rename_i term rest' hr' heq
      split at h
      · exact absurd h (by simp)
      · rename_i other rem h2 heq2
        simp only [Except.ok.injEq, Prod.mk.injEq, Subtype.mk.injEq] at h
        obtain ⟨rfl, rfl⟩ := h
        have hb : 2 * rest'.length + 1 ≤ n := by
          simp only [List.length_cons] at hr'; omega
        have h1 := (ih rest' hb).1 _ _ _ heq2
        exact (h1.trans (List.suffix_cons _ _)).trans (hterm _ _ _ heq)
    · -- Minus branch
      rename_i term rest' hr' heq
      split at h
      · exact absurd h (by simp)
      · rename_i other rem h2 heq2
        simp only [Except.ok.injEq, Prod.mk.injEq, Subtype.mk.injEq] at h
        obtain ⟨rfl, rfl⟩ := h
        have hb : 2 * rest'.length + 1 ≤ n := by
          simp only [List.length_cons] at hr'; omega
        have h1 := (ih rest' hb).2 _ _ _ heq2
        exact (h1.trans (List.suffix_cons _ _)).trans (hterm _ _ _ heq)
    · -- pass-through branch
      rename_i term rem hcp hcm heq
      simp only [Except.ok.injEq, Prod.mk.injEq] at h
      obtain ⟨rfl, h2⟩ := h
      subst h2
      exact hterm _ _ _ heq

/-!
Claim theorems.
-/
/-- C1: evaluation of the top-level `parse` on the pure-addition chain
"1+2+3".  `parse_expr` consumes only `1+2` (the `+` arm parses exactly one
further term and returns), so the outer caller sees the remaining `+` and
fails with `Expected {end of input, found Plus}` instead of producing
`Add (Add 1 2) 3` required by the grammar comment
`expr = term { ("+" | "-"), term }` in `src/main.rs`. -/
theorem C1_addition_chain_fails :
    parse ['1', '+', '2', '+', '3'] =
      Except.error (ParseError.Expected "end of input" Token.Plus) := by
  have h1 : parse_term [Token.Digit 1, Token.Plus, Token.Digit 2, Token.Plus, Token.Digit 3] =
      Except.ok (Expr.Number 1, ⟨[Token.Plus, Token.Digit 2, Token.Plus, Token.Digit 3], by decide⟩) :=
    parse_term_number_ok (by decide) (by exact rfl)
  have h2 : parse_term [Token.Digit 2, Token.Plus, Token.Digit 3] =
      Except.ok (Expr.Number 2, ⟨[Token.Plus, Token.Digit 3], by decide⟩) :=
    parse_term_number_ok (by decide) (by exact rfl)
  have h3 : parse_expr [Token.Digit 1, Token.Plus, Token.Digit 2, Token.Plus, Token.Digit 3] =
      Except.ok (Expr.Add (Expr.Number 1) (Expr.Number 2), ⟨[Token.Plus, Token.Digit 3], by decide⟩) :=
    parse_expr_plus_ok h1 h2
  have htok : tokenize ['1', '+', '2', '+', '3'] =
      Except.ok [Token.Digit 1, Token.Plus, Token.Digit 2, Token.Plus, Token.Digit 3] := by
    exact rfl
  simp only [parse, htok, h3]

/-- C2: in `expr`, a `-` after the first term recurses into a full `expr`
for the right-hand side (right-associative subtraction); concretely
"1-2-3" parses as `Sub 1 (Sub 2 3)` and evaluates to `2`. -/
theorem C2_subtraction_right_associative :
    (∀ (ts : List Token) (t : Expr) (rest : List Token)
        (hr : (Token.Minus :: rest).length < ts.length),
        parse_term ts = Except.ok (t, ⟨Token.Minus :: rest, hr⟩) →
        Except.map (fun p => (p.1, p.2.val)) (parse_expr ts) =
          Except.map (fun p => (Expr.Sub t p.1, p.2.val)) (parse_expr rest))
    ∧ parse ['1', '-', '2', '-', '3'] =
        Except.ok (Expr.Sub (Expr.Number 1) (Expr.Sub (Expr.Number 2) (Expr.Number 3)))
    ∧ evaluate (Expr.Sub (Expr.Number 1) (Expr.Sub (Expr.Number 2) (Expr.Number 3))) = 2 := by
  refine ⟨?_, ?_, by decide⟩
  · intro ts t rest hr h
    cases hres : parse_expr rest with
    | error e => rw [parse_expr_minus_err h hres]; rfl
    | ok p =>
        obtain ⟨o, rem, h2⟩ := p
        rw [parse_expr_minus_ok h hres]
        rfl
  · have h1 : parse_term [Token.Digit 1, Token.Minus, Token.Digit 2, Token.Minus, Token.Digit 3] =
        Except.ok (Expr.Number 1, ⟨[Token.Minus, Token.Digit 2, Token.Minus, Token.Digit 3], by decide⟩) :=
      parse_term_number_ok (by decide) (by exact rfl)
    have h2 : parse_term [Token.Digit 2, Token.Minus, Token.Digit 3] =
        Except.ok (Expr.Number 2, ⟨[Token.Minus, Token.Digit 3], by decide⟩) :=
      parse_term_number_ok (by decide) (by exact rfl)
    have h3 : parse_term [Token.Digit 3] =
        Except.ok (Expr.Number 3, ⟨[], by decide⟩) :=
      parse_term_number_ok (by decide) (by exact rfl)
    have h4 : parse_expr [Token.Digit 3] = Except.ok (Expr.Number 3, ⟨[], by decide⟩) :=
      parse_expr_term_done h3 (fun r => by simp) (fun r => by simp)
    have h5 : parse_expr [Token.Digit 2, Token.Minus, Token.Digit 3] =
        Except.ok (Expr.Sub (Expr.Number 2) (Expr.Number 3), ⟨[], by decide⟩) :=
      parse_expr_minus_ok h2 h4
    have h6 : parse_expr [Token.Digit 1, Token.Minus, Token.Digit 2, Token.Minus, Token.Digit 3] =
        Except.ok (Expr.Sub (Expr.Number 1) (Expr.Sub (Expr.Number 2) (Expr.Number 3)), ⟨[], by decide⟩) :=
      parse_expr_minus_ok h1 h5
    have htok : tokenize ['1', '-', '2', '-', '3'] =
        Except.ok [Token.Digit 1, Token.Minus, Token.Digit 2, Token.Minus, Token.Digit 3] := by
      exact rfl
    simp only [parse, htok, h6]

/-- Closed witness for C2: the structural conjunct applied to the token
slice of "2-3" (the inner step of "1-2-3"). -/
theorem C2_subtraction_right_associative_witness :
    Except.map (fun p => (p.1, p.2.val)) (parse_expr [Token.Digit 2, Token.Minus, Token.Digit 3]) =
      Except.map (fun p => (Expr.Sub (Expr.Number 2) p.1, p.2.val)) (parse_expr [Token.Digit 3]) :=
  C2_subtraction_right_associative.1 [Token.Digit 2, Token.Minus, Token.Digit 3]
    (Expr.Number 2) [Token.Digit 3] (by decide)
    (parse_term_number_ok (by decide) (by exact rfl))

/-- Well-formed tree: every stored literal is in `i32` range (this is the
invariant `parse` establishes, since literals come from a `u32 as i32`
cast). -/
def Expr.wf : Expr → Prop
  | Expr.Number n => -2 ^ 31 ≤ n ∧ n < 2 ^ 31
  | Expr.Add l r => Expr.wf l ∧ Expr.wf r
  | Expr.Sub l r => Expr.wf l ∧ Expr.wf r

theorem i32wrap_range (n : Int) : -2 ^ 31 ≤ i32wrap n ∧ i32wrap n < 2 ^ 31 := by
  have h1 := Int.emod_nonneg (n + 2 ^ 31) (by norm_num : (2 : Int) ^ 32 ≠ 0)
  have h2 := Int.emod_lt_of_pos (n + 2 ^ 31) (by norm_num : (0 : Int) < 2 ^ 32)
  unfold i32wrap
  omega

/-- C4: `evaluate` is a total pure function satisfying the three defining
equations over 32-bit signed (wrapping) arithmetic, and on well-formed
trees its result stays in `i32` range. -/
theorem C4_evaluate_total :
    (∀ v : Int, evaluate (Expr.Number v) = v)
    ∧ (∀ l r : Expr, evaluate (Expr.Add l r) = i32wrap (evaluate l + evaluate r))
    ∧ (∀ l r : Expr, evaluate (Expr.Sub l r) = i32wrap (evaluate l - evaluate r))
    ∧ (∀ e : Expr, Expr.wf e → -2 ^ 31 ≤ evaluate e ∧ evaluate e < 2 ^ 31) := by
  refine ⟨fun v => rfl, fun l r => rfl, fun l r => rfl, ?_⟩
  intro e he
  induction e with
  | Number n => exact he
  | Add l r ihl ihr => exact i32wrap_range _
  | Sub l r ihl ihr => exact i32wrap_range _

/-- Closed witness for C4: the range part at the concrete tree for "1+2". -/
theorem C4_evaluate_total_witness :
    -2 ^ 31 ≤ evaluate (Expr.Add (Expr.Number 1) (Expr.Number 2))
      ∧ evaluate (Expr.Add (Expr.Number 1) (Expr.Number 2)) < 2 ^ 31 :=
  C4_evaluate_total.2.2.2 (Expr.Add (Expr.Number 1) (Expr.Number 2))
    ⟨⟨by norm_num, by norm_num⟩, ⟨by norm_num, by norm_num⟩⟩

/-- Counterexample to C3 as stated: the ten-digit string "3000000000" has
base-10 value 3000000000, but `parse_number` accumulates in `u32` and
casts `as i32`, so the tree literal is -1294967296, not 3000000000. -/
theorem C3_digit_string_counterexample :
    parse ['3', '0', '0', '0', '0', '0', '0', '0', '0', '0'] =
      Except.ok (Expr.Number (-1294967296))
    ∧ parse ['3', '0', '0', '0', '0', '0', '0', '0', '0', '0'] ≠
      Except.ok (Expr.Number 3000000000) := by
  have h := parse_all_digits '3' ['0', '0', '0', '0', '0', '0', '0', '0', '0'] (by decide)
  have hv : u32asI32 (((['0', '0', '0', '0', '0', '0', '0', '0', '0'] : List Char).map
      (fun x => x.toNat - 48)).foldl u32step ('3'.toNat - 48)) = -1294967296 := by decide
  rw [h, hv]
  refine ⟨rfl, ?_⟩
  intro hcontra
  simp only [Except.ok.injEq, Expr.Number.injEq] at hcontra
  exact absurd hcontra (by decide)

/-- C3 (amended): for every nonempty all-digit input whose exact base-10
value (left-to-right accumulation) is below 2^31, `parse` succeeds with
`Number` of exactly that value and `evaluate` returns it.  (For larger
values the `u32` accumulation wraps modulo 2^32 and the `as i32` cast
reinterprets the bit pattern, as the counterexample shows.) -/
theorem C3_digit_strings_parse_to_value (cs : List Char) (hne : cs ≠ [])
    (hd : ∀ c ∈ cs, c.isDigit = true) (hlt : digitsVal cs < 2 ^ 31) :
    parse cs = Except.ok (Expr.Number (digitsVal cs))
    ∧ evaluate (Expr.Number (digitsVal cs)) = digitsVal cs := by
  match cs, hne, hd, hlt with
  | c :: cs', _, hd, hlt =>
    refine ⟨?_, rfl⟩
    rw [parse_all_digits c cs' hd]
    have hfold : (cs'.map fun x => x.toNat - 48).foldl (fun x d => x * 10 + d) (c.toNat - 48)
        = digitsVal (c :: cs') := by
      rw [List.foldl_map, digitsVal]
      simp only [List.foldl_cons, Nat.zero_mul, Nat.zero_add]
    have hm := foldl_u32step_eq (cs'.map fun x => x.toNat - 48) (c.toNat - 48)
      (by rw [hfold]; exact lt_trans hlt (by norm_num))
    rw [hm, hfold]
    simp only [u32asI32, if_pos hlt]

/-- Closed witness for the amended C3 at the input "12". -/
theorem C3_digit_strings_parse_to_value_witness :
    parse ['1', '2'] = Except.ok (Expr.Number (digitsVal ['1', '2']))
    ∧ evaluate (Expr.Number (digitsVal ['1', '2'])) = digitsVal ['1', '2'] :=
  C3_digit_strings_parse_to_value ['1', '2'] (by decide) (by decide) (by decide)

/-- C5: after `expr` completes, the top level fails with
`Expected {end of input, found: first remaining token}` exactly when
tokens remain, and returns the tree unchanged when none remain;
concretely "1+2)" fails that way on the trailing `)`. -/
theorem C5_end_of_input_check :
    (∀ (input : List Char) (ts : List Token) (e : Expr) (rest : List Token)
        (hr : rest.length < ts.length),
        tokenize input = Except.ok ts →
        parse_expr ts = Except.ok (e, ⟨rest, hr⟩) →
        ((∀ t rest', rest = t :: rest' →
            parse input = Except.error (ParseError.Expected "end of input" t))
         ∧ (rest = [] → parse input = Except.ok e)))
    ∧ parse ['1', '+', '2', ')'] =
        Except.error (ParseError.Expected "end of input" Token.RParen) := by
  constructor
  · intro input ts e rest hr h1 h2
    constructor
    · intro t rest' hcons
      subst hcons
      simp only [parse, h1, h2]
    · intro h0
      subst h0
      simp only [parse, h1, h2]
  · have h1 : parse_term [Token.Digit 1, Token.Plus, Token.Digit 2, Token.RParen] =
        Except.ok (Expr.Number 1, ⟨[Token.Plus, Token.Digit 2, Token.RParen], by decide⟩) :=
      parse_term_number_ok (by decide) (by exact rfl)
    have h2 : parse_term [Token.Digit 2, Token.RParen] =
        Except.ok (Expr.Number 2, ⟨[Token.RParen], by decide⟩) :=
      parse_term_number_ok (by decide) (by exact rfl)
    have h3 : parse_expr [Token.Digit 1, Token.Plus, Token.Digit 2, Token.RParen] =
        Except.ok (Expr.Add (Expr.Number 1) (Expr.Number 2), ⟨[Token.RParen], by decide⟩) :=
      parse_expr_plus_ok h1 h2
    have htok : tokenize ['1', '+', '2', ')'] =
        Except.ok [Token.Digit 1, Token.Plus, Token.Digit 2, Token.RParen] := by
      exact rfl
    simp only [parse, htok, h3]

/-- Closed witness for C5: the no-trailing-tokens side at the input "1+2". -/
theorem C5_end_of_input_check_witness :
    parse ['1', '+', '2'] = Except.ok (Expr.Add (Expr.Number 1) (Expr.Number 2)) :=
  (C5_end_of_input_check.1 ['1', '+', '2']
      [Token.Digit 1, Token.Plus, Token.Digit 2]
      (Expr.Add (Expr.Number 1) (Expr.Number 2)) [] (by decide)
      (by exact rfl)
      (parse_expr_plus_ok
        (parse_term_number_ok (by decide) (by exact rfl))
        (parse_term_number_ok (by decide) (by exact rfl)))).2 rfl

/-- C6: a parenthesized `term` demands `)` after the nested `expr`:
any other remaining token yields `Expected {right parenthesis}`, an
exhausted slice yields `UnexpectedEndOfInput` (and a present `)` is
consumed); concretely "(1+2" fails with `UnexpectedEndOfInput`. -/
theorem C6_right_paren_required :
    (∀ (rest : List Token) (e : Expr) (rem : List Token)
        (hr : rem.length < rest.length),
        parse_expr rest = Except.ok (e, ⟨rem, hr⟩) →
        ((rem = [] →
            parse_term (Token.LParen :: rest) = Except.error ParseError.UnexpectedEndOfInput)
         ∧ (∀ t r2, rem = t :: r2 → t ≠ Token.RParen →
             parse_term (Token.LParen :: rest) =
               Except.error (ParseError.Expected "right parenthesis" t))
         ∧ (∀ r2, rem = Token.RParen :: r2 →
             Except.map (fun p => (p.1, p.2.val)) (parse_term (Token.LParen :: rest)) =
               Except.ok (e, r2))))
    ∧ parse ['(', '1', '+', '2'] = Except.error ParseError.UnexpectedEndOfInput := by
  constructor
  · intro rest e rem hr h
    refine ⟨?_, ?_, ?_⟩
    · intro h0
      subst h0
      exact parse_term_lparen_end h
    · intro t r2 hcons hne
      subst hcons
      exact parse_term_lparen_bad h hne
    · intro r2 hcons
      subst hcons
      rw [parse_term_lparen_ok h]
      rfl
  · have h1 : parse_term [Token.Digit 1, Token.Plus, Token.Digit 2] =
        Except.ok (Expr.Number 1, ⟨[Token.Plus, Token.Digit 2], by decide⟩) :=
      parse_term_number_ok (by decide) (by exact rfl)
    have h2 : parse_term [Token.Digit 2] =
        Except.ok (Expr.Number 2, ⟨[], by decide⟩) :=
      parse_term_number_ok (by decide) (by exact rfl)
    have h3 : parse_expr [Token.Digit 1, Token.Plus, Token.Digit 2] =
        Except.ok (Expr.Add (Expr.Number 1) (Expr.Number 2), ⟨[], by decide⟩) :=
      parse_expr_plus_ok h1 h2
    have h4 : parse_term [Token.LParen, Token.Digit 1, Token.Plus, Token.Digit 2] =
        Except.error ParseError.UnexpectedEndOfInput :=
      parse_term_lparen_end h3
    have h5 : parse_expr [Token.LParen, Token.Digit 1, Token.Plus, Token.Digit 2] =
        Except.error ParseError.UnexpectedEndOfInput :=
      parse_expr_term_err h4
    have htok : tokenize ['(', '1', '+', '2'] =
        Except.ok [Token.LParen, Token.Digit 1, Token.Plus, Token.Digit 2] := by
      exact rfl
    simp only [parse, htok, h5]

/-- Closed witness for C6: the exhausted-slice side at the token slice of
"(1". -/
theorem C6_right_paren_required_witness :
    parse_term [Token.LParen, Token.Digit 1] = Except.error ParseError.UnexpectedEndOfInput :=
  (C6_right_paren_required.1 [Token.Digit 1] (Expr.Number 1) [] (by decide)
    (parse_expr_term_done (parse_term_number_ok (by decide) (by exact rfl))
      (fun r => by simp) (fun r => by simp))).1 rfl

/-- C7: `tokenize` maps `(`, `)`, `+`, `-` and digits to their tokens in
input order (after discarding whitespace), and fails with
`InvalidToken c` at the first character outside the alphabet; concretely
"1+a" already fails at tokenization, so `parse` fails the same way. -/
theorem C7_tokenize_mapping :
    (∀ input : List Char,
        (∀ c ∈ input.filter (fun c => !c.isWhitespace), validChar c = true) →
        tokenize input =
          Except.ok ((input.filter (fun c => !c.isWhitespace)).map tokenOfChar))
    ∧ (∀ (input pre : List Char) (c : Char) (suf : List Char),
        input.filter (fun c => !c.isWhitespace) = pre ++ c :: suf →
        (∀ d ∈ pre, validChar d = true) → validChar c = false →
        tokenize input = Except.error (ParseError.InvalidToken c))
    ∧ tokenOfChar '(' = Token.LParen ∧ tokenOfChar ')' = Token.RParen
    ∧ tokenOfChar '+' = Token.Plus ∧ tokenOfChar '-' = Token.Minus
    ∧ (∀ c : Char, c.isDigit = true → tokenOfChar c = Token.Digit (c.toNat - 48))
    ∧ tokenize ['1', '+', 'a'] = Except.error (ParseError.InvalidToken 'a')
    ∧ parse ['1', '+', 'a'] = Except.error (ParseError.InvalidToken 'a') := by
  refine ⟨?_, ?_, rfl, rfl, rfl, rfl, digit_char_tokenOf, rfl, ?_⟩
  · intro input h
    rw [tokenize]
    exact collectTokens_ok _ h
  · intro input pre c suf hsplit hpre hc
    rw [tokenize, hsplit]
    exact collectTokens_err pre c suf hpre hc
  · have htok : tokenize ['1', '+', 'a'] = Except.error (ParseError.InvalidToken 'a') := rfl
    simp only [parse, htok]

/-- Closed witness for C7: the success side at the input "1+2". -/
theorem C7_tokenize_mapping_witness :
    tokenize ['1', '+', '2'] =
      Except.ok (((['1', '+', '2'] : List Char).filter (fun c => !c.isWhitespace)).map tokenOfChar) :=
  C7_tokenize_mapping.1 ['1', '+', '2'] (by decide)

/-- C8: whitespace characters never produce tokens, so parsing any input
equals parsing the same input with all whitespace removed; concretely
"1 + 2" and "1+2" parse to the identical tree `Add 1 2`. -/
theorem C8_whitespace_insensitive :
    (∀ input : List Char, parse (input.filter (fun c => !c.isWhitespace)) = parse input)
    ∧ parse ['1', ' ', '+', ' ', '2'] = Except.ok (Expr.Add (Expr.Number 1) (Expr.Number 2))
    ∧ parse ['1', '+', '2'] = Except.ok (Expr.Add (Expr.Number 1) (Expr.Number 2)) := by
  have hconcrete : ∀ input : List Char,
      tokenize input = Except.ok [Token.Digit 1, Token.Plus, Token.Digit 2] →
      parse input = Except.ok (Expr.Add (Expr.Number 1) (Expr.Number 2)) := by
    intro input htok
    have h1 : parse_term [Token.Digit 1, Token.Plus, Token.Digit 2] =
        Except.ok (Expr.Number 1, ⟨[Token.Plus, Token.Digit 2], by decide⟩) :=
      parse_term_number_ok (by decide) (by exact rfl)
    have h2 : parse_term [Token.Digit 2] = Except.ok (Expr.Number 2, ⟨[], by decide⟩) :=
      parse_term_number_ok (by decide) (by exact rfl)
    have h3 : parse_expr [Token.Digit 1, Token.Plus, Token.Digit 2] =
        Except.ok (Expr.Add (Expr.Number 1) (Expr.Number 2), ⟨[], by decide⟩) :=
      parse_expr_plus_ok h1 h2
    simp only [parse, htok, h3]
  refine ⟨?_, hconcrete _ (by exact rfl), hconcrete _ (by exact rfl)⟩
  intro input
  have ht : tokenize (input.filter (fun c => !c.isWhitespace)) = tokenize input := by
    rw [tokenize, tokenize, List.filter_filter]
    simp only [Bool.and_self]
  simp only [parse, ht]

/-- C9: every successful rule invocation returns the untouched unconsumed
suffix: the remainder of `parse_expr`, `parse_term` and `parse_number` is
always a suffix of the input slice. -/
theorem C9_remainder_suffix :
    (∀ (ts : List Token) (e : Expr) (rest : List Token) (hr : rest.length < ts.length),
        parse_expr ts = Except.ok (e, ⟨rest, hr⟩) → rest <:+ ts)
    ∧ (∀ (ts : List Token) (e : Expr) (rest : List Token) (hr : rest.length < ts.length),
        parse_term ts = Except.ok (e, ⟨rest, hr⟩) → rest <:+ ts)
    ∧ (∀ (ts : List Token) (e : Expr) (rest : List Token),
        parse_number ts = Except.ok (e, rest) → rest <:+ ts) :=
  ⟨fun ts e rest hr h => (parse_suffix_aux (2 * ts.length + 1) ts (Nat.le_refl _)).2 e rest hr h,
   fun ts e rest hr h => (parse_suffix_aux (2 * ts.length + 1) ts (Nat.le_refl _)).1 e rest hr h,
   fun ts e rest h => parse_number_suffix h⟩

/-- Closed witness for C9: the `parse_expr` part at the token slice of
"2)", whose remainder `[)]` is a suffix of the input slice. -/
theorem C9_remainder_suffix_witness :
    [Token.RParen] <:+ [Token.Digit 2, Token.RParen] :=
  C9_remainder_suffix.1 [Token.Digit 2, Token.RParen] (Expr.Number 2) [Token.RParen] (by decide)
    (parse_expr_term_done (parse_term_number_ok (by decide) (by exact rfl))
      (fun r => by simp) (fun r => by simp))

/-- C10: the recursion of the three rules is well-founded because every
successful rule application consumes at least one token: the remainder is
strictly shorter than the input slice (for `parse_expr` and `parse_term`
this bound is carried in their return type, which is what lets Lean accept
the mutual recursion as terminating on every finite slice). -/
theorem C10_termination_strict_consumption :
    (∀ (ts : List Token) (e : Expr) (rest : List Token),
        parse_number ts = Except.ok (e, rest) → rest.length < ts.length)
    ∧ (∀ (ts : List Token) (p : Expr × {rest : List Token // rest.length < ts.length}),
        parse_term ts = Except.ok p → p.2.val.length < ts.length)
    ∧ (∀ (ts : List Token) (p : Expr × {rest : List Token // rest.length < ts.length}),
        parse_expr ts = Except.ok p → p.2.val.length < ts.length) :=
  ⟨fun _ _ _ h => parse_number_consumes h,
   fun _ p _ => p.2.prop,
   fun _ p _ => p.2.prop⟩

/-- Closed witness for C10: `parse_number` on the token slice of "12+3"
consumes the two-digit run. -/
theorem C10_termination_strict_consumption_witness :
    ([Token.Plus, Token.Digit 3] : List Token).length <
      ([Token.Digit 1, Token.Digit 2, Token.Plus, Token.Digit 3] : List Token).length :=
  C10_termination_strict_consumption.1
    [Token.Digit 1, Token.Digit 2, Token.Plus, Token.Digit 3]
    (Expr.Number 12) [Token.Plus, Token.Digit 3] (by exact rfl)
